import Mathlib

/-!
# cq-provider-sdk: schema lookup and the verification harness

A shallow embedding of

* `provider/schema/table.go` (`Table`, `Table.Column`),
* `provider/providertest/querytmpl.go` and `provider/providertest/resource.go`
  (`selectColumnsIsNull`, `verifyAtLeastOne`, `verifyOptionalQuery`,
  `getTablesFromMainTable`),
* `provider/testing/resource.go` (`verifyNoEmptyColumns`, `dropAndCreateTable`),

followed by the properties established about them.

Conventions of the embedding:

* a Go slice is a `List`; a Go `map[string]T` read with the zero value for a
  missing key is a function `String → T`, or an association list where the
  code ranges over the keys;
* a database connection is a parameter: a function from the statement it is
  handed to the answer it gives;
* `t.Fatal`, `t.Errorf` and `t.Skipf` become explicit results: a check returns
  whether it failed the test, or the list of failures it reported;
* a `[]string` held in the test data is a slice header over memory cells, so
  that slices sharing a backing array share their elements; a write through
  such a slice (the `arrprintf` template function) is a write to the cells.
-/

deriving instance DecidableEq for Except

/-! ## Schema model (`provider/schema`) -/

namespace schema

/-- Modelled from the spec: `schema.Column` is declared outside the files under
study; it is a column definition `{name, type, constraints}` of which the code
embedded here reads the fields `Name` and `IgnoreInTests` only. -/
structure Column where
  Name : String
  IgnoreInTests : Bool
deriving DecidableEq, Repr

/-- The type `schema.ColumnList`: the ordered columns of a table. -/
abbrev ColumnList := List Column

/-- The type `schema.Table`, a node of the table tree. The fields that no embedded
function reads (`Description`, `Resolver`, `IgnoreError`, `Multiplex`,
`DeleteFilter`, `PostResourceResolver`, `Options`, `AlwaysDelete`, `Global`)
are left out. -/
inductive Table where
  | mk (Name : String) (Columns : ColumnList) (Relations : List Table)
      (IgnoreInTests : Bool)

namespace Table

/-- Field `Name`. -/
def Name : Table → String
  | mk n _ _ _ => n

/-- Field `Columns`. -/
def Columns : Table → ColumnList
  | mk _ c _ _ => c

/-- Field `Relations`. -/
def Relations : Table → List Table
  | mk _ _ r _ => r

/-- Field `IgnoreInTests`. -/
def IgnoreInTests : Table → Bool
  | mk _ _ _ i => i

/-- The `for _, c := range t.Columns` loop of `Table.Column`. The first
argument is the backing array of `t.Columns`, threaded through the loop; the
body only reads it. -/
def Column.loop (name : String) (store : ColumnList) :
    ColumnList → Option schema.Column × ColumnList
  | [] => (none, store)
  | c :: rest => if c.Name = name then (some c, store) else Column.loop name store rest

/-- The method `func (t Table) Column(name string) *Column`: the result (`none` for the
nil pointer) together with the contents of `t.Columns` after the call. -/
def Column (t : Table) (name : String) : Option schema.Column × ColumnList :=
  Column.loop name t.Columns t.Columns

/-- The table reached from `t` by following child indexes in `Relations`. -/
def subtable? : Table → List Nat → Option Table
  | t, [] => some t
  | t, i :: p =>
    match t.Relations[i]? with
    | none => none
    | some c => subtable? c p

mutual
/-- Number of nodes of the tree rooted at a table. -/
def countNodes : Table → Nat
  | mk _ _ rels _ => 1 + countNodesList rels
/-- Number of nodes of a forest. -/
def countNodesList : List Table → Nat
  | [] => 0
  | t :: ts => countNodes t + countNodesList ts
end

mutual
/-- The positions (child-index paths) of the tree rooted at a table, parents
first, children in `Relations` order. -/
def paths : Table → List (List Nat)
  | mk _ _ rels _ => [] :: pathsFrom rels 0
/-- The positions of the trees of a forest whose first tree is child `i`. -/
def pathsFrom : List Table → Nat → List (List Nat)
  | [], _ => []
  | t :: ts, i => (paths t).map (List.cons i) ++ pathsFrom ts (i + 1)
end

end Table

end schema

/-! ## Query template and harness of `provider/providertest` -/

namespace providertest

open schema

/-- A persisted row: column name to value, `none` for SQL null. -/
abbrev Row := List (String × Option String)

/-- The column `c` of row `r` holds null. -/
def Row.isNull (r : Row) (c : String) : Bool :=
  r.lookup c == some none

/-- The interface `pgxscan.Querier`, as far as the harness uses it: the answer of
`conn.Query` to a statement, an error or the rows. -/
abbrev Querier := String → Except String (List Row)

/-- The body of `fmt.Sprintf` for a format applied to one string operand: the
first `%v` verb is replaced by the operand, the other characters are copied. -/
def Sprintf.go (arg : List Char) : List Char → List Char
  | '%' :: 'v' :: rest => arg ++ rest
  | c :: rest => c :: Sprintf.go arg rest
  | [] => []

/-- The call `fmt.Sprintf(format, arg)` for one string operand. -/
def Sprintf (format : String) (arg : String) : String :=
  ⟨Sprintf.go arg.data format.data⟩

/-- Template function `join`: `strings.Join(elems, sep)`. -/
def join (sep : String) : List String → String
  | [] => ""
  | [e] => e
  | e :: es => e ++ sep ++ join sep es

/-- Template function `arrprintf`: every element of `elems` is overwritten in
place by its formatted text and the same slice is returned. -/
def arrprintf (format : String) (elems : List String) : List String :=
  elems.map (Sprintf format)

/-- Executing the template `selectColumnsIsNull`,
`select * from {{.Table}} where {{.Columns | arrprintf "%v is null" | join " and "}};`,
on `Table = table` and `Columns = columns`: the rendered text, and the
contents of the slice `columns` after `arrprintf` has written to it. -/
def selectColumnsIsNull (table : String) (columns : List String) :
    String × List String :=
  let elems := arrprintf "%v is null" columns
  ("select * from " ++ table ++ " where " ++ join " and " elems ++ ";", elems)

/-- The call `selectColumnsIsNull.Query(conn, {"Table": table, "Columns": columns})`:
the answer of the connection to the rendered statement, and the contents of
`columns` after the call. -/
def QueryTemplate.Query (conn : Querier) (table : String) (columns : List String) :
    Except String (List Row) × List String :=
  let r := selectColumnsIsNull table columns
  (conn r.1, r.2)

/-- A Go `[]string` stored in the test data: `len` consecutive memory cells
starting at `ptr`. Two slices share the elements of the cells they have in
common. -/
structure Slice where
  ptr : Nat
  len : Nat
deriving DecidableEq, Repr

/-- The memory cells holding the elements of the slices of the test data. -/
abbrev Memory := Nat → String

/-- The elements of a slice, read from the memory. -/
def Slice.read (s : Slice) (mem : Memory) : List String :=
  (List.range s.len).map (fun i => mem (s.ptr + i))

/-- The memory after the elements of a slice have been overwritten by
`elems`. -/
def Slice.write (s : Slice) (mem : Memory) (elems : List String) : Memory :=
  fun a => if s.ptr ≤ a ∧ a < s.ptr + s.len then elems.getD (a - s.ptr) (mem a) else mem a

/-- The struct `ResourceTestData`, the fields read by the two checks. `Groups`
holds the slice headers stored in the map `AtLeastOne` (a group is a
`[]string` of column names) and `Cells` the memory they point into; `Config`,
`Resources`, `Configure` and `SkipEmptyJsonB` are left out. -/
structure ResourceTestData where
  Table : schema.Table
  Groups : String → List Slice
  Cells : Memory
  Optional : String → List String

/-- The value of `tc.AtLeastOne[name]` as the code reads it: the groups stored
under the name, each with its current elements. -/
def ResourceTestData.AtLeastOne (tc : ResourceTestData) (name : String) :
    List (List String) :=
  (tc.Groups name).map (fun g => g.read tc.Cells)

mutual
/-- The function `getTablesFromMainTable`: the table, then the tables of each relation. -/
def getTablesFromMainTable : schema.Table → List schema.Table
  | .mk n c rels i => schema.Table.mk n c rels i :: getTablesFromRelations rels
/-- The loop `for _, t := range table.Relations` of `getTablesFromMainTable`. -/
def getTablesFromRelations : List schema.Table → List schema.Table
  | [] => []
  | t :: ts => getTablesFromMainTable t ++ getTablesFromRelations ts
end

/-- The inner loop of `verifyAtLeastOne` over the groups of one table: whether
`t.Fatal` was reached, and the memory after the loop. Each group is rendered
from its current elements, and `arrprintf` leaves its cells holding the
formatted texts. -/
def verifyAtLeastOne.groups (conn : Querier) (table : String) :
    List Slice → Memory → Bool × Memory
  | [], mem => (false, mem)
  | columns :: rest, mem =>
    match QueryTemplate.Query conn table (columns.read mem) with
    | (.error _, columns') => (true, columns.write mem columns')
    | (.ok rows, columns') =>
      if rows ≠ [] then (true, columns.write mem columns')
      else verifyAtLeastOne.groups conn table rest (columns.write mem columns')

/-- The outer loop of `verifyAtLeastOne` over the tables of the tree, with the
memory as state. -/
def verifyAtLeastOne.tables (conn : Querier) (groups : String → List Slice) :
    List schema.Table → Memory → Bool × Memory
  | [], mem => (false, mem)
  | t :: ts, mem =>
    let r := verifyAtLeastOne.groups conn t.Name (groups t.Name) mem
    if r.1 then (true, r.2) else verifyAtLeastOne.tables conn groups ts r.2

/-- The call `verifyAtLeastOne(t, tc, conn)`: whether the test was failed (`t.Fatal`),
and the test data after the call. -/
def verifyAtLeastOne (conn : Querier) (tc : ResourceTestData) :
    Bool × ResourceTestData :=
  let r := verifyAtLeastOne.tables conn tc.Groups (getTablesFromMainTable tc.Table) tc.Cells
  (r.1, { tc with Cells := r.2 })

/-- Adding a key to the set `columnsMap` (`columnsMap[k] = struct{}{}`). -/
def columnsMapInsert (m : List String) (k : String) : List String :=
  if k ∈ m then m else m ++ [k]

/-- Removing a key from `columnsMap` (`delete(columnsMap, k)`). -/
def columnsMapDelete (m : List String) (k : String) : List String :=
  m.filter (fun k' => k' ≠ k)

/-- The keys left in `columnsMap` when `verifyOptionalQuery` builds its query
for `table`: the column names, without those of `Optional` and without those
of every group of `AtLeastOne`. -/
def verifyOptionalQuery.columnsMap (tc : ResourceTestData) (table : schema.Table) :
    List String :=
  let m0 := table.Columns.foldl (fun m column => columnsMapInsert m column.Name) []
  let m1 := (tc.Optional table.Name).foldl columnsMapDelete m0
  (tc.AtLeastOne table.Name).foldl (fun m columns => columns.foldl columnsMapDelete m) m1

/-- The loop of `verifyOptionalQuery` over the tables. `order` is the order in
which `for k := range columnsMap` yields the keys for a table, which Go leaves
unspecified. The slice `columns` is allocated by the loop body, so what
`arrprintf` writes to it reaches no cell of the test data. -/
def verifyOptionalQuery.tables (conn : Querier)
    (order : String → List String → List String) (tc : ResourceTestData) :
    List schema.Table → Bool
  | [] => false
  | t :: ts =>
    let columns := order t.Name (verifyOptionalQuery.columnsMap tc t)
    match QueryTemplate.Query conn t.Name columns with
    | (.error _, _) => true
    | (.ok rows, _) =>
      if rows ≠ [] then true else verifyOptionalQuery.tables conn order tc ts

/-- The call `verifyOptionalQuery(t, tc, conn)`: whether the test was failed. -/
def verifyOptionalQuery (conn : Querier)
    (order : String → List String → List String) (tc : ResourceTestData) : Bool :=
  verifyOptionalQuery.tables conn order tc (getTablesFromMainTable tc.Table)

/-- The two checks at the end of `TestResource`, on the same test data:
`verifyAtLeastOne(t, resource, conn)` and, unless it stopped the test,
`verifyOptionalQuery(t, resource, conn)`. -/
def TestResource (conn : Querier) (order : String → List String → List String)
    (resource : ResourceTestData) : Bool :=
  let r := verifyAtLeastOne conn resource
  if r.1 then true else verifyOptionalQuery conn order r.2

end providertest

/-! ## Harness of `provider/testing` -/

namespace testing

open schema

/-- One element of `data []map[string]interface{}`: a row as decoded from
`json_agg`, `none` for nil. -/
abbrev Row := List (String × Option String)

/-- The rows `pgxscan.Get` decodes from the statement
`SELECT json_agg(<name>) FROM <name>` built for a table name, or its error. -/
abbrev Querier := String → Except String (List Row)

/-- A failure reported to the test runner. -/
inductive Report where
  | fatal (table : String) (err : String)
  | zeroEntries (table : String)
  | nilColumn (table : String) (columns : List String)
deriving DecidableEq, Repr

/-- Assignment `nilColumns[k] = v` on the map `nilColumns`. -/
def nilColumnsSet : List (String × Bool) → String → Bool → List (String × Bool)
  | [], k, v => [(k, v)]
  | (k', v') :: rest, k, v =>
    if k' = k then (k, v) :: rest else (k', v') :: nilColumnsSet rest k v

/-- The loop marking the columns of the table as nil. -/
def markColumns (shouldSkipIgnoreInTest : Bool) :
    ColumnList → List (String × Bool) → List (String × Bool)
  | [], m => m
  | c :: cs, m =>
    if shouldSkipIgnoreInTest || !c.IgnoreInTests then
      markColumns shouldSkipIgnoreInTest cs (nilColumnsSet m c.Name true)
    else markColumns shouldSkipIgnoreInTest cs m

/-- The loop `for c, v := range row`. -/
def clearRow : Row → List (String × Bool) → List (String × Bool)
  | [], m => m
  | (c, v) :: rest, m =>
    if v ≠ none then clearRow rest (nilColumnsSet m c false) else clearRow rest m

/-- The loop `for _, row := range data`. -/
def clearRows : List Row → List (String × Bool) → List (String × Bool)
  | [], m => m
  | row :: rest, m => clearRows rest (clearRow row m)

/-- The slice `nilColumnsArr` computed by `verifyNoEmptyColumns` for a table
and its rows. -/
def nilColumnsArr (shouldSkipIgnoreInTest : Bool) (columns : ColumnList)
    (data : List Row) : List String :=
  ((clearRows data (markColumns shouldSkipIgnoreInTest columns [])).filter
    (fun kv => kv.2)).map (fun kv => kv.1)

/-- The part of the subtest body of `verifyNoEmptyColumns` that follows the
query, for one table: the failure it reports for that table, if any. -/
def checkTable (shouldSkipIgnoreInTest : Bool) (table : Table) (data : List Row) :
    Option Report :=
  if data.length = 0 then some (.zeroEntries table.Name)
  else
    let arr := nilColumnsArr shouldSkipIgnoreInTest table.Columns data
    if arr.length ≠ 0 then some (.nilColumn table.Name arr) else none

mutual
/-- The call `verifyNoEmptyColumns(t, table, conn, shouldSkipIgnoreInTest)`: the
failures reported by the subtest of the table and by the subtests nested in
it. `t.Skipf` and `t.Fatal` end the subtest, as does the `return` after the
zero-entries error. -/
def verifyNoEmptyColumns (conn : Querier) (shouldSkipIgnoreInTest : Bool) :
    Table → List Report
  | .mk name columns relations ignoreInTests =>
    if !shouldSkipIgnoreInTest && ignoreInTests then []
    else
      match conn name with
      | .error err => [.fatal name err]
      | .ok data =>
        if data.length = 0 then [.zeroEntries name]
        else
          (checkTable shouldSkipIgnoreInTest
              (.mk name columns relations ignoreInTests) data).toList ++
            verifyNoEmptyColumns.relations conn shouldSkipIgnoreInTest relations
/-- The loop `for _, childTable := range table.Relations`. -/
def verifyNoEmptyColumns.relations (conn : Querier) (shouldSkipIgnoreInTest : Bool) :
    List Table → List Report
  | [] => []
  | childTable :: rest =>
    verifyNoEmptyColumns conn shouldSkipIgnoreInTest childTable ++
      verifyNoEmptyColumns.relations conn shouldSkipIgnoreInTest rest
end

/-- One of the two loops of `dropAndCreateTable`: the statements are handed
to `conn.Exec` in order until one fails. The state is the state of the
connection and the statements executed so far. -/
def dropAndCreateTable.loop {σ : Type} (Exec : σ → String → Option String × σ) :
    List String → σ × List String → Option String × (σ × List String)
  | [], s => (none, s)
  | sql :: rest, s =>
    match Exec s.1 sql with
    | (some err, st) => (some err, (st, s.2 ++ [sql]))
    | (none, st) => dropAndCreateTable.loop Exec rest (st, s.2 ++ [sql])

/-- The call `dropAndCreateTable(ctx, tableCreator, conn, table, parent)`. `created` is
what `tableCreator.CreateTableDefinitions(ctx, table, parent)` returned
(`ups, downs, err`), `Exec` is `conn.Exec` and `st` the state of the
connection at the call. The result is the returned error (`none` for nil),
the state of the connection and the statements executed, in order. -/
def dropAndCreateTable {σ : Type} (created : List String × List String × Option String)
    (Exec : σ → String → Option String × σ) (st : σ) :
    Option String × (σ × List String) :=
  match created with
  | (_, _, some err) => (some err, (st, []))
  | (ups, downs, none) =>
    match dropAndCreateTable.loop Exec downs (st, []) with
    | (some err, s) => (some err, s)
    | (none, s) => dropAndCreateTable.loop Exec ups s

/-- Specification side: the state reached when every statement of the list
succeeds in turn, `none` when one of them fails. -/
def execAllOk {σ : Type} (Exec : σ → String → Option String × σ) :
    List String → σ → Option σ
  | [], st => some st
  | sql :: rest, st =>
    match Exec st sql with
    | (some _, _) => none
    | (none, st') => execAllOk Exec rest st'

end testing

/-- Specification side: every table on the path `p` from the root, the table
reached included, has `IgnoreInTests` false. -/
def schema.Table.pathChecked : schema.Table → List Nat → Bool
  | t, [] => !t.IgnoreInTests
  | t, i :: p =>
    !t.IgnoreInTests &&
      match t.Relations[i]? with
      | none => false
      | some c => schema.Table.pathChecked c p

/-- Specification side: the rows among `rows` in which every listed column is
null, the answer a store gives to
`select * from T where c1 is null and ... and cn is null;`. -/
def providertest.rowsAllNull (rows : List providertest.Row) (columns : List String) :
    List providertest.Row :=
  rows.filter (fun r => columns.all r.isNull)

/-- Specification side: the statement rendered for a table and a list of
columns makes a check fail the test, by an error or by a row in the answer. -/
def providertest.queryFails (conn : providertest.Querier) (table : String)
    (columns : List String) : Bool :=
  match conn (providertest.selectColumnsIsNull table columns).1 with
  | .error _ => true
  | .ok rows => decide (rows ≠ [])

/-! ## Example data -/

namespace examples

open schema

/-- A table `users` with a column `notes` marked `IgnoreInTests`. -/
def usersWithNotes : Table :=
  .mk "users" [⟨"id", false⟩, ⟨"notes", true⟩] [] false

/-- One row of `users` whose `notes` is nil. -/
def usersWithNotesData : List testing.Row :=
  [[("id", some "1"), ("notes", none)]]

/-- A store holding `usersWithNotesData` in `users`. -/
def usersWithNotesConn : testing.Querier :=
  fun name => if name = "users" then .ok usersWithNotesData else .error "no such table"

/-- A table `events` without rows. -/
def events : Table :=
  .mk "events" [⟨"id", false⟩] [] false

/-- A table `accounts` marked `IgnoreInTests`, with the relation `events`. -/
def ignoredAccounts : Table :=
  .mk "accounts" [⟨"id", false⟩] [events] true

/-- The table `accounts` not marked `IgnoreInTests`, with the relation `events`. -/
def accounts : Table :=
  .mk "accounts" [⟨"id", false⟩] [events] false

/-- A store with one row in `accounts` and none in `events`. -/
def accountsConn : testing.Querier :=
  fun name =>
    if name = "accounts" then .ok [[("id", some "1")]]
    else if name = "events" then .ok []
    else .error "no such table"

/-- A store holding `rows` in one table: it answers the statement rendered
for that table and one of the listed column lists with the rows in which
these columns are all null, and refuses every other statement. -/
def store (table : String) (rows : List providertest.Row) (known : List (List String)) :
    providertest.Querier :=
  fun q =>
    match known.find? (fun cols =>
        decide (q = (providertest.selectColumnsIsNull table cols).1)) with
    | some cols => .ok (providertest.rowsAllNull rows cols)
    | none => .error "unexpected statement"

/-- The rows of each table when only `table` holds rows. -/
def single (table : String) (rows : List providertest.Row) :
    String → List providertest.Row :=
  fun n => if n = table then rows else []

/-- Memory holding `email, phone` in the cells 0 and 1 and again in the cells
2 and 3. -/
def contactCells : providertest.Memory :=
  fun a => if a = 0 ∨ a = 2 then "email" else if a = 1 ∨ a = 3 then "phone" else ""

/-- The table `users` of the harness scenario. -/
def users : Table :=
  .mk "users" [⟨"id", false⟩, ⟨"name", false⟩, ⟨"email", false⟩] [] false

/-- The test data of the harness scenario: the group `[email, phone]`, held
in the cells 0 and 1. -/
def usersData : providertest.ResourceTestData where
  Table := users
  Groups := fun n => if n = "users" then [⟨0, 2⟩] else []
  Cells := contactCells
  Optional := fun _ => []

/-- The row `{id: 1, name: "a", email: null, phone: null}`. -/
def rowNoContact : providertest.Row :=
  [("id", some "1"), ("name", some "a"), ("email", none), ("phone", none)]

/-- The same row with a phone. -/
def rowWithPhone : providertest.Row :=
  [("id", some "1"), ("name", some "a"), ("email", none), ("phone", some "555")]

/-- The harness scenario with `name` declared optional. -/
def usersOptionalData : providertest.ResourceTestData where
  Table := users
  Groups := fun n => if n = "users" then [⟨0, 2⟩] else []
  Cells := contactCells
  Optional := fun n => if n = "users" then ["name"] else []

/-- A row of `users` without `id`. -/
def rowNoId : providertest.Row :=
  [("id", none), ("name", some "a"), ("email", some "e"), ("phone", none)]

/-- A row of `users` without `name`. -/
def rowNoName : providertest.Row :=
  [("id", some "1"), ("name", none), ("email", some "e"), ("phone", none)]

/-- A table `contacts` with the columns `id`, `email` and `phone`. -/
def contacts : Table :=
  .mk "contacts" [⟨"id", false⟩, ⟨"email", false⟩, ⟨"phone", false⟩] [] false

/-- Test data for `contacts`: the group `[email, phone]`, no optional column. -/
def contactsData : providertest.ResourceTestData where
  Table := contacts
  Groups := fun n => if n = "contacts" then [⟨0, 2⟩] else []
  Cells := contactCells
  Optional := fun _ => []

/-- A row of `contacts` with an email and without `id`. -/
def contactNoId : providertest.Row :=
  [("id", none), ("email", some "e"), ("phone", none)]

/-- A store holding `contactNoId` in `contacts`. -/
def contactsConn : providertest.Querier :=
  store "contacts" [contactNoId] [["email", "phone"], ["id"], ["id", "email", "phone"]]

/-- A store holding `rowNoName` in `users`. -/
def usersNoNameConn : providertest.Querier :=
  store "users" [rowNoName] [["email", "phone"], ["id", "name"], ["name", "id"]]

/-- A table `admins` with the columns `id`, `email` and `phone`. -/
def admins : Table :=
  .mk "admins" [⟨"id", false⟩, ⟨"email", false⟩, ⟨"phone", false⟩] [] false

/-- A table `members` with the same columns and the relation `admins`. -/
def members : Table :=
  .mk "members" [⟨"id", false⟩, ⟨"email", false⟩, ⟨"phone", false⟩] [admins] false

/-- Test data for `members`: one slice `[email, phone]`, the cells 0 and 1,
stored as the group of `members` and as the group of `admins`. -/
def sharedGroupData : providertest.ResourceTestData where
  Table := members
  Groups := fun n => if n = "members" ∨ n = "admins" then [⟨0, 2⟩] else []
  Cells := contactCells
  Optional := fun _ => []

/-- Test data for `members` with the same groups held in two slices, the
cells 0 and 1 for `members` and the cells 2 and 3 for `admins`. -/
def separateGroupData : providertest.ResourceTestData where
  Table := members
  Groups := fun n =>
    if n = "members" then [⟨0, 2⟩] else if n = "admins" then [⟨2, 2⟩] else []
  Cells := contactCells
  Optional := fun _ => []

/-- A row of `members` with an email. -/
def memberWithEmail : providertest.Row :=
  [("id", some "1"), ("email", some "e"), ("phone", none)]

/-- A row of `admins` with neither email nor phone. -/
def adminNoContact : providertest.Row :=
  [("id", some "2"), ("email", none), ("phone", none)]

/-- A store holding `memberWithEmail` in `members` and `adminNoContact` in
`admins`; it answers the statements of the column lists `[email, phone]` and
`[email is null, phone is null]` for both tables. -/
def membersConn : providertest.Querier :=
  fun q =>
    match store "members" [memberWithEmail]
        [["email", "phone"], ["email is null", "phone is null"]] q with
    | .ok rows => .ok rows
    | .error _ =>
      store "admins" [adminNoContact]
        [["email", "phone"], ["email is null", "phone is null"]] q

end examples

/-! ## Properties -/

open schema

/-! ### Induction over table trees -/

mutual
/-- Induction over a table tree: a property that holds of a table whenever it
holds of all its relations holds of every table. -/
theorem schema.Table.induct {P : Table → Prop}
    (h : ∀ n c rels i, (∀ t ∈ rels, P t) → P (.mk n c rels i)) : ∀ t, P t
  | .mk n c rels i => h n c rels i (schema.Table.induct_list h rels)
/-- The list step of `schema.Table.induct`. -/
theorem schema.Table.induct_list {P : Table → Prop}
    (h : ∀ n c rels i, (∀ t ∈ rels, P t) → P (.mk n c rels i)) :
    ∀ rels : List Table, ∀ t ∈ rels, P t
  | [], _, hm => absurd hm (List.not_mem_nil _)
  | t :: ts, u, hm =>
    (List.mem_cons.1 hm).elim (fun e => e ▸ schema.Table.induct h t)
      (fun hu => schema.Table.induct_list h ts u hu)
end

/-! ### `getTablesFromMainTable` -/

namespace providertest

theorem getTablesFromRelations_nil : getTablesFromRelations [] = [] := by
  simp [getTablesFromRelations]

theorem getTablesFromRelations_cons (t : Table) (ts : List Table) :
    getTablesFromRelations (t :: ts) =
      getTablesFromMainTable t ++ getTablesFromRelations ts := by
  simp [getTablesFromRelations]

theorem getTablesFromMainTable_eq (t : Table) :
    getTablesFromMainTable t = t :: getTablesFromRelations t.Relations := by
  cases t; simp [getTablesFromMainTable, Table.Relations]

theorem getTablesFromRelations_eq_flatten (ts : List Table) :
    getTablesFromRelations ts = (ts.map getTablesFromMainTable).flatten := by
  induction ts with
  | nil => simp [getTablesFromRelations_nil]
  | cons t ts ih => simp [getTablesFromRelations_cons, ih]

end providertest

namespace schema.Table

theorem countNodes_eq (t : Table) : t.countNodes = 1 + countNodesList t.Relations := by
  cases t; simp [countNodes, Relations]

theorem countNodesList_cons (t : Table) (ts : List Table) :
    countNodesList (t :: ts) = t.countNodes + countNodesList ts := by
  simp [countNodesList]

theorem paths_eq (t : Table) : t.paths = [] :: pathsFrom t.Relations 0 := by
  cases t; simp [paths, Relations]

theorem pathsFrom_cons (t : Table) (ts : List Table) (i : Nat) :
    pathsFrom (t :: ts) i = t.paths.map (List.cons i) ++ pathsFrom ts (i + 1) := by
  simp [pathsFrom]

theorem subtable?_cons (t : Table) (i : Nat) (p : List Nat) :
    t.subtable? (i :: p) = (t.Relations[i]?).bind (fun c => c.subtable? p) := by
  simp only [subtable?]
  cases t.Relations[i]? <;> rfl

theorem mem_pathsFrom (ts : List Table) :
    ∀ (i k : Nat) (p : List Nat), (k :: p) ∈ pathsFrom ts i ↔
      i ≤ k ∧ ∃ t, ts[k - i]? = some t ∧ p ∈ t.paths := by
  induction ts with
  | nil => intro i k p; simp [pathsFrom]
  | cons t ts ih =>
    intro i k p
    rw [pathsFrom_cons, List.mem_append, ih]
    constructor
    · rintro (h | ⟨hle, u, hu, hp⟩)
      · obtain ⟨q, hq, he⟩ := List.mem_map.1 h
        injection he with h1 h2
        subst h1; subst h2
        exact ⟨le_refl _, t, by simp, hq⟩
      · refine ⟨by omega, u, ?_, hp⟩
        have e : k - i = (k - (i + 1)) + 1 := by omega
        rw [e]; simpa using hu
    · rintro ⟨hle, u, hu, hp⟩
      by_cases hk : k = i
      · subst hk
        left
        simp at hu
        subst hu
        exact List.mem_map.2 ⟨p, hp, rfl⟩
      · right
        refine ⟨by omega, u, ?_, hp⟩
        have e : k - i = (k - (i + 1)) + 1 := by omega
        rw [e] at hu; simpa using hu

theorem nil_not_mem_pathsFrom (ts : List Table) : ∀ i, [] ∉ pathsFrom ts i := by
  induction ts with
  | nil => intro i; simp [pathsFrom]
  | cons t ts ih => intro i; simp [pathsFrom_cons, ih]

theorem mem_paths_iff (t : Table) : ∀ p, p ∈ t.paths ↔ (t.subtable? p).isSome := by
  induction t using schema.Table.induct with
  | h n c rels i ih =>
    intro p
    rw [paths_eq]
    cases p with
    | nil => simp [subtable?]
    | cons k p =>
      rw [subtable?_cons]
      simp only [List.mem_cons, Relations, mem_pathsFrom, Nat.sub_zero, Nat.zero_le, true_and]
      constructor
      · rintro (h | ⟨u, hu, hp⟩)
        · cases h
        · rw [hu]
          exact (ih u (List.getElem?_mem hu) p).1 hp
      · intro h
        right
        cases hu : rels[k]? with
        | none => rw [hu] at h; simp at h
        | some u =>
          rw [hu] at h
          exact ⟨u, rfl, (ih u (List.getElem?_mem hu) p).2 h⟩

end schema.Table

namespace schema.Table

theorem pathsFrom_pairwise (ts : List Table)
    (ih : ∀ t ∈ ts, t.paths.Pairwise (fun p q => ¬ q <+: p)) :
    ∀ i, (pathsFrom ts i).Pairwise (fun p q => ¬ q <+: p) := by
  induction ts with
  | nil => intro i; simp [pathsFrom]
  | cons t ts iht =>
    intro i
    rw [pathsFrom_cons, List.pairwise_append]
    refine ⟨?_, iht (fun u hu => ih u (List.mem_cons_of_mem _ hu)) (i + 1), ?_⟩
    · rw [List.pairwise_map]
      refine (ih t (List.mem_cons_self _ _)).imp ?_
      intro a b hab hpre
      exact hab (List.cons_prefix_cons.1 hpre).2
    · intro a ha b hb hpre
      obtain ⟨a', _, rfl⟩ := List.mem_map.1 ha
      cases b with
      | nil => exact nil_not_mem_pathsFrom ts (i + 1) hb
      | cons k q =>
        have hk := ((mem_pathsFrom ts (i + 1) k q).1 hb).1
        have hki := (List.cons_prefix_cons.1 hpre).1
        omega

theorem paths_pairwise (t : Table) : t.paths.Pairwise (fun p q => ¬ q <+: p) := by
  induction t using schema.Table.induct with
  | h n c rels i ih =>
    rw [paths_eq, List.pairwise_cons]
    refine ⟨?_, pathsFrom_pairwise _ ih 0⟩
    intro q hq hpre
    rw [List.prefix_nil] at hpre
    subst hpre
    exact nil_not_mem_pathsFrom _ 0 hq

theorem paths_nodup (t : Table) : t.paths.Nodup :=
  (paths_pairwise t).imp (by
    intro a b hab e
    subst e
    exact hab (List.prefix_refl _))

theorem pathsFrom_map_subtable? (t : Table) (ts : List Table)
    (ih : ∀ u ∈ ts, u.paths.map u.subtable? =
      (providertest.getTablesFromMainTable u).map some) :
    ∀ (pre : List Table), t.Relations = pre ++ ts →
      (pathsFrom ts pre.length).map t.subtable? =
        (providertest.getTablesFromRelations ts).map some := by
  induction ts with
  | nil => intro pre _; simp [pathsFrom, providertest.getTablesFromRelations_nil]
  | cons u ts iht =>
    intro pre hrel
    rw [pathsFrom_cons, providertest.getTablesFromRelations_cons, List.map_append,
      List.map_append, List.map_map]
    congr 1
    · rw [← ih u (List.mem_cons_self _ _)]
      apply List.map_congr_left
      intro p _
      have hget : (pre ++ u :: ts)[pre.length]? = some u := by
        rw [List.getElem?_append_right (le_refl _)]; simp
      simp only [Function.comp, subtable?_cons, hrel, hget, Option.some_bind]
    · have := iht (fun v hv => ih v (List.mem_cons_of_mem _ hv)) (pre ++ [u])
        (by simp [hrel])
      simpa using this

theorem paths_map_subtable? (t : Table) :
    t.paths.map t.subtable? = (providertest.getTablesFromMainTable t).map some := by
  induction t using schema.Table.induct with
  | h n c rels i ih =>
    rw [paths_eq, providertest.getTablesFromMainTable_eq]
    simp only [List.map_cons, subtable?]
    congr 1
    exact pathsFrom_map_subtable? (.mk n c rels i) rels ih [] (by simp [Relations])

theorem length_getTablesFromRelations (ts : List Table)
    (ih : ∀ t ∈ ts, (providertest.getTablesFromMainTable t).length = t.countNodes) :
    (providertest.getTablesFromRelations ts).length = countNodesList ts := by
  induction ts with
  | nil => simp [providertest.getTablesFromRelations_nil, countNodesList]
  | cons t ts iht =>
    rw [providertest.getTablesFromRelations_cons, countNodesList_cons, List.length_append,
      ih t (List.mem_cons_self _ _), iht (fun u hu => ih u (List.mem_cons_of_mem _ hu))]

theorem length_getTablesFromMainTable (t : Table) :
    (providertest.getTablesFromMainTable t).length = t.countNodes := by
  induction t using schema.Table.induct with
  | h n c rels i ih =>
    have hlen := length_getTablesFromRelations rels ih
    rw [providertest.getTablesFromMainTable_eq, countNodes_eq, List.length_cons]
    simp only [Relations, hlen]
    omega

end schema.Table

/-- C7: `getTablesFromMainTable` lists the table tree depth-first, parents
first. The result is the root followed by the concatenation, in `Relations`
order, of the results for the children; its length is the number of nodes of
the tree and its first element is the root; and the positions of the tree
(`paths`, exactly the child-index paths that lead to a table) are listed
without repetition, the table at the i-th listed position being the i-th
table of the result, with the position of a table listed before the positions
of all its descendants. -/
theorem getTablesFromMainTable_preorder (t : Table) :
    providertest.getTablesFromMainTable t
        = t :: (t.Relations.map providertest.getTablesFromMainTable).flatten
      ∧ (providertest.getTablesFromMainTable t).length = t.countNodes
      ∧ (providertest.getTablesFromMainTable t).head? = some t
      ∧ (∀ p, p ∈ t.paths ↔ (t.subtable? p).isSome)
      ∧ t.paths.Nodup
      ∧ t.paths.map t.subtable? = (providertest.getTablesFromMainTable t).map some
      ∧ (∀ (i j : Nat) (hi : i < t.paths.length) (hj : j < t.paths.length),
          t.paths[i] <+: t.paths[j] → i ≤ j) := by
  refine ⟨?_, Table.length_getTablesFromMainTable t, ?_, Table.mem_paths_iff t,
    Table.paths_nodup t, Table.paths_map_subtable? t, ?_⟩
  · rw [providertest.getTablesFromMainTable_eq,
      providertest.getTablesFromRelations_eq_flatten]
  · rw [providertest.getTablesFromMainTable_eq]; rfl
  · intro i j hi hj hpre
    by_contra hlt
    exact (List.pairwise_iff_getElem.1 (Table.paths_pairwise t) j i hj hi (by omega)) hpre

/-! ### `Table.Column` -/

namespace schema.Table

theorem Column_loop_store (name : String) (store : ColumnList) (cols : ColumnList) :
    (Column.loop name store cols).2 = store := by
  induction cols with
  | nil => rfl
  | cons c rest ih =>
    simp only [Column.loop]
    split
    · rfl
    · exact ih

theorem Column_loop_eq_find? (name : String) (store : ColumnList) (cols : ColumnList) :
    (Column.loop name store cols).1 = cols.find? (fun c => decide (c.Name = name)) := by
  induction cols with
  | nil => rfl
  | cons c rest ih =>
    simp only [Column.loop, List.find?_cons]
    by_cases h : c.Name = name
    · simp [h]
    · simp [h, ih]

theorem Column_loop_none (name : String) (store : ColumnList) (cols : ColumnList) :
    (Column.loop name store cols).1 = none ↔ ∀ c ∈ cols, c.Name ≠ name := by
  rw [Column_loop_eq_find?]
  simp

theorem Column_loop_some (name : String) (store : ColumnList) (cols : ColumnList)
    (c : schema.Column) (h : (Column.loop name store cols).1 = some c) :
    ∃ pre post, cols = pre ++ c :: post ∧ c.Name = name ∧ ∀ d ∈ pre, d.Name ≠ name := by
  induction cols with
  | nil => simp [Column.loop] at h
  | cons d rest ih =>
    simp only [Column.loop] at h
    by_cases hd : d.Name = name
    · simp only [hd, if_true, Option.some.injEq] at h
      subst h
      exact ⟨[], rest, rfl, hd, by simp⟩
    · simp only [hd, if_false] at h
      obtain ⟨pre, post, hsplit, hname, hpre⟩ := ih h
      refine ⟨d :: pre, post, by simp [hsplit], hname, ?_⟩
      intro e he
      rcases List.mem_cons.1 he with rfl | he
      · exact hd
      · exact hpre e he

end schema.Table

/-- C8: `Table.Column(name)` returns nil exactly when no column of `t.Columns`
has that name; otherwise it returns the first column, in `Columns` order,
whose `Name` equals `name` (the columns before it have other names); and the
contents of `t.Columns` after the call are those before it. -/
theorem Table_Column_first_match (t : Table) (name : String) :
    ((t.Column name).1 = none ↔ ∀ c ∈ t.Columns, c.Name ≠ name)
      ∧ (∀ c, (t.Column name).1 = some c →
          ∃ pre post, t.Columns = pre ++ c :: post ∧ c.Name = name ∧
            ∀ d ∈ pre, d.Name ≠ name)
      ∧ (t.Column name).1 = t.Columns.find? (fun c => decide (c.Name = name))
      ∧ (t.Column name).2 = t.Columns :=
  ⟨Table.Column_loop_none name t.Columns t.Columns,
    fun c h => Table.Column_loop_some name t.Columns t.Columns c h,
    Table.Column_loop_eq_find? name t.Columns t.Columns,
    Table.Column_loop_store name t.Columns t.Columns⟩

/-! ### The text of `selectColumnsIsNull` -/

namespace providertest

theorem Sprintf_is_null (c : String) : Sprintf "%v is null" c = c ++ " is null" := by
  rfl

theorem arrprintf_is_null (columns : List String) :
    arrprintf "%v is null" columns = columns.map (fun c => c ++ " is null") := by
  unfold arrprintf
  apply List.map_congr_left
  intro c _
  exact Sprintf_is_null c

theorem intercalate_go_acc (sep : String) (es : List String) :
    ∀ acc, String.intercalate.go acc sep es = acc ++ String.intercalate.go "" sep es := by
  induction es with
  | nil => intro acc; simp [String.intercalate.go]
  | cons x xs ih =>
    intro acc
    simp only [String.intercalate.go]
    rw [ih (acc ++ sep ++ x), ih ("" ++ sep ++ x)]
    simp [String.append_assoc]

theorem join_cons_cons (sep e e' : String) (es : List String) :
    join sep (e :: e' :: es) = e ++ sep ++ join sep (e' :: es) := by
  simp [join]

theorem join_eq_intercalate (sep : String) (elems : List String) :
    join sep elems = String.intercalate sep elems := by
  induction elems with
  | nil => rfl
  | cons e es ih =>
    cases es with
    | nil => simp [join, String.intercalate, String.intercalate.go]
    | cons e' es' =>
      rw [join_cons_cons, ih]
      simp only [String.intercalate, String.intercalate.go]
      rw [intercalate_go_acc sep es' (e ++ sep ++ e'), intercalate_go_acc sep es' e']
      simp [String.append_assoc]

end providertest

/-! ### The key set of `verifyOptionalQuery` -/

namespace providertest

theorem mem_columnsMapInsert {m : List String} {k x : String} :
    x ∈ columnsMapInsert m k ↔ x ∈ m ∨ x = k := by
  unfold columnsMapInsert
  split
  · constructor
    · intro h; exact Or.inl h
    · rintro (h | rfl)
      · exact h
      · assumption
  · simp

theorem nodup_columnsMapInsert {m : List String} {k : String} (h : m.Nodup) :
    (columnsMapInsert m k).Nodup := by
  unfold columnsMapInsert
  split
  · exact h
  · rename_i hk
    rw [List.nodup_append]
    refine ⟨h, List.nodup_singleton k, ?_⟩
    intro a ha hb
    simp at hb
    subst hb
    exact hk ha

theorem mem_columnsMapDelete {m : List String} {k x : String} :
    x ∈ columnsMapDelete m k ↔ x ∈ m ∧ x ≠ k := by
  simp [columnsMapDelete]

theorem nodup_columnsMapDelete {m : List String} {k : String} (h : m.Nodup) :
    (columnsMapDelete m k).Nodup :=
  h.filter _

theorem mem_foldl_insert (cols : ColumnList) :
    ∀ (m : List String) (x : String),
      x ∈ cols.foldl (fun m column => columnsMapInsert m column.Name) m ↔
        x ∈ m ∨ ∃ c ∈ cols, c.Name = x := by
  induction cols with
  | nil => intro m x; simp
  | cons c cs ih =>
    intro m x
    rw [List.foldl_cons, ih, mem_columnsMapInsert]
    constructor
    · rintro ((h | h) | ⟨d, hd, hx⟩)
      · exact Or.inl h
      · exact Or.inr ⟨c, List.mem_cons_self _ _, h.symm⟩
      · exact Or.inr ⟨d, List.mem_cons_of_mem _ hd, hx⟩
    · rintro (h | ⟨d, hd, hx⟩)
      · exact Or.inl (Or.inl h)
      · rcases List.mem_cons.1 hd with rfl | hd
        · exact Or.inl (Or.inr hx.symm)
        · exact Or.inr ⟨d, hd, hx⟩

theorem nodup_foldl_insert (cols : ColumnList) :
    ∀ (m : List String), m.Nodup →
      (cols.foldl (fun m column => columnsMapInsert m column.Name) m).Nodup := by
  induction cols with
  | nil => intro m h; exact h
  | cons c cs ih => intro m h; exact ih _ (nodup_columnsMapInsert h)

theorem mem_foldl_delete (ks : List String) :
    ∀ (m : List String) (x : String),
      x ∈ ks.foldl columnsMapDelete m ↔ x ∈ m ∧ x ∉ ks := by
  induction ks with
  | nil => intro m x; simp
  | cons k ks ih =>
    intro m x
    rw [List.foldl_cons, ih, mem_columnsMapDelete]
    simp only [List.mem_cons, not_or]
    tauto

theorem nodup_foldl_delete (ks : List String) :
    ∀ (m : List String), m.Nodup → (ks.foldl columnsMapDelete m).Nodup := by
  induction ks with
  | nil => intro m h; exact h
  | cons k ks ih => intro m h; exact ih _ (nodup_columnsMapDelete h)

theorem mem_foldl_groups (gs : List (List String)) :
    ∀ (m : List String) (x : String),
      x ∈ gs.foldl (fun m columns => columns.foldl columnsMapDelete m) m ↔
        x ∈ m ∧ ∀ g ∈ gs, x ∉ g := by
  induction gs with
  | nil => intro m x; simp
  | cons g gs ih =>
    intro m x
    rw [List.foldl_cons, ih, mem_foldl_delete]
    simp only [List.mem_cons, forall_eq_or_imp]
    tauto

theorem nodup_foldl_groups (gs : List (List String)) :
    ∀ (m : List String), m.Nodup →
      (gs.foldl (fun m columns => columns.foldl columnsMapDelete m) m).Nodup := by
  induction gs with
  | nil => intro m h; exact h
  | cons g gs ih => intro m h; exact ih _ (nodup_foldl_delete g m h)

theorem mem_columnsMap (tc : ResourceTestData) (T : Table) (x : String) :
    x ∈ verifyOptionalQuery.columnsMap tc T ↔
      (∃ c ∈ T.Columns, c.Name = x) ∧ x ∉ tc.Optional T.Name ∧
        ∀ g ∈ tc.AtLeastOne T.Name, x ∉ g := by
  unfold verifyOptionalQuery.columnsMap
  simp only [mem_foldl_groups, mem_foldl_delete, mem_foldl_insert, List.not_mem_nil,
    false_or]
  tauto

theorem nodup_columnsMap (tc : ResourceTestData) (T : Table) :
    (verifyOptionalQuery.columnsMap tc T).Nodup := by
  unfold verifyOptionalQuery.columnsMap
  exact nodup_foldl_groups _ _ (nodup_foldl_delete _ _ (nodup_foldl_insert _ _ List.nodup_nil))

end providertest

namespace providertest

theorem selectColumnsIsNull_fst (table : String) (columns : List String) :
    (selectColumnsIsNull table columns).1 =
      "select * from " ++ table ++ " where " ++
        String.intercalate " and " (columns.map (fun c => c ++ " is null")) ++ ";" := by
  simp only [selectColumnsIsNull, arrprintf_is_null, join_eq_intercalate]

theorem selectColumnsIsNull_snd (table : String) (columns : List String) :
    (selectColumnsIsNull table columns).2 = columns.map (fun c => c ++ " is null") := by
  simp only [selectColumnsIsNull, arrprintf_is_null]

theorem columnsMap_eq_nil (tc : ResourceTestData) (T : Table)
    (h : ∀ c ∈ T.Columns, c.Name ∈ tc.Optional T.Name ∨
      ∃ g ∈ tc.AtLeastOne T.Name, c.Name ∈ g) :
    verifyOptionalQuery.columnsMap tc T = [] := by
  rw [List.eq_nil_iff_forall_not_mem]
  intro x hx
  obtain ⟨⟨c, hc, rfl⟩, hopt, hgrp⟩ := (mem_columnsMap tc T x).1 hx
  rcases h c hc with h1 | ⟨g, hg, hcg⟩
  · exact hopt h1
  · exact hgrp g hg hcg

end providertest

/-- C10: the text rendered by `selectColumnsIsNull` for a table name and a
list of column names is `select * from T where c1 is null and ... and cn is
null;`, the conditions `ci is null` joined by ` and `; for instance the group
`[email, phone]` of `users`. For the empty list it is
`select * from T where ;`, and `verifyOptionalQuery` renders exactly that for
a table all of whose columns are in `Optional` or in a group of
`AtLeastOne`. -/
theorem selectColumnsIsNull_text (table : String) (columns : List String) :
    (providertest.selectColumnsIsNull table columns).1 =
        "select * from " ++ table ++ " where " ++
          String.intercalate " and " (columns.map (fun c => c ++ " is null")) ++ ";"
      ∧ (providertest.selectColumnsIsNull "users" ["email", "phone"]).1 =
          "select * from users where email is null and phone is null;"
      ∧ (providertest.selectColumnsIsNull table []).1 =
          "select * from " ++ table ++ " where ;"
      ∧ (∀ (tc : providertest.ResourceTestData) (T : Table)
          (order : String → List String → List String),
          (∀ n l, (order n l).Perm l) →
          (∀ c ∈ T.Columns, c.Name ∈ tc.Optional T.Name ∨
            ∃ g ∈ tc.AtLeastOne T.Name, c.Name ∈ g) →
          (providertest.selectColumnsIsNull T.Name
              (order T.Name (providertest.verifyOptionalQuery.columnsMap tc T))).1 =
            "select * from " ++ T.Name ++ " where ;") := by
  refine ⟨providertest.selectColumnsIsNull_fst table columns, by decide, ?_, ?_⟩
  · rw [providertest.selectColumnsIsNull_fst]
    simp [String.intercalate, String.append_assoc]
  · intro tc T order horder hall
    have hnil := providertest.columnsMap_eq_nil tc T hall
    have hord : order T.Name (providertest.verifyOptionalQuery.columnsMap tc T) = [] := by
      rw [hnil]
      exact List.perm_nil.1 (horder T.Name [])
    rw [hord, providertest.selectColumnsIsNull_fst]
    simp [String.intercalate, String.append_assoc]

/-! ### `dropAndCreateTable` -/

namespace testing

variable {σ : Type}

theorem loop_of_ok (Exec : σ → String → Option String × σ) (l : List String) :
    ∀ (st st' : σ) (log : List String), execAllOk Exec l st = some st' →
      dropAndCreateTable.loop Exec l (st, log) = (none, (st', log ++ l)) := by
  induction l with
  | nil =>
    intro st st' log h
    simp only [execAllOk, Option.some.injEq] at h
    simp [dropAndCreateTable.loop, h]
  | cons sql rest ih =>
    intro st st' log h
    simp only [execAllOk] at h
    simp only [dropAndCreateTable.loop]
    rcases hE : Exec st sql with ⟨_ | e, st1⟩
    · rw [hE] at h
      simp only at h ⊢
      rw [ih st1 st' (log ++ [sql]) h]
      simp
    · rw [hE] at h
      simp at h

theorem loop_of_fail (Exec : σ → String → Option String × σ) (l : List String) :
    ∀ (st : σ) (log : List String), execAllOk Exec l st = none →
      ∃ pre sql post st1 e, l = pre ++ sql :: post ∧ execAllOk Exec pre st = some st1 ∧
        (Exec st1 sql).1 = some e ∧
        dropAndCreateTable.loop Exec l (st, log) =
          (some e, ((Exec st1 sql).2, log ++ (pre ++ [sql]))) := by
  induction l with
  | nil => intro st log h; simp [execAllOk] at h
  | cons sql rest ih =>
    intro st log h
    simp only [execAllOk] at h
    rcases hE : Exec st sql with ⟨_ | e, st1⟩
    · rw [hE] at h
      simp only at h
      obtain ⟨pre, s, post, st2, e, hsplit, hpre, hs, hloop⟩ := ih st1 (log ++ [sql]) h
      refine ⟨sql :: pre, s, post, st2, e, by simp [hsplit], ?_, hs, ?_⟩
      · simp only [execAllOk, hE]
        exact hpre
      · simp only [dropAndCreateTable.loop, hE]
        rw [hloop]
        simp
    · refine ⟨[], sql, rest, st, e, rfl, rfl, by rw [hE], ?_⟩
      simp only [dropAndCreateTable.loop, hE]
      simp

theorem loop_append (Exec : σ → String → Option String × σ) (l₁ l₂ : List String) :
    ∀ (s : σ × List String),
      dropAndCreateTable.loop Exec (l₁ ++ l₂) s =
        match dropAndCreateTable.loop Exec l₁ s with
        | (some err, s') => (some err, s')
        | (none, s') => dropAndCreateTable.loop Exec l₂ s' := by
  induction l₁ with
  | nil => intro s; simp [dropAndCreateTable.loop]
  | cons sql rest ih =>
    intro s
    simp only [List.cons_append, dropAndCreateTable.loop]
    rcases hE : Exec s.1 sql with ⟨_ | e, st1⟩
    · simp only
      exact ih _
    · simp

theorem dropAndCreateTable_eq_loop (ups downs : List String)
    (Exec : σ → String → Option String × σ) (st : σ) :
    dropAndCreateTable (ups, downs, none) Exec st =
      dropAndCreateTable.loop Exec (downs ++ ups) (st, []) := by
  simp only [dropAndCreateTable]
  rw [loop_append]

end testing

/-- C9: `dropAndCreateTable`. If `CreateTableDefinitions` failed, its error is
returned and no statement is executed. Otherwise the statements executed form
a prefix of `downs` followed by `ups`: when a statement fails, they are the
statements before the first failing one (all of which succeeded) and that
statement, whose error is returned; when none fails they are all of them and
nil is returned. The result is nil exactly when generation succeeded and
every statement of `downs` and `ups` succeeded in turn, and when some
statement of `downs` fails only statements of `downs` were executed. -/
theorem dropAndCreateTable_stops_at_first_failure {σ : Type} (ups downs : List String)
    (err : Option String) (Exec : σ → String → Option String × σ) (st : σ) :
    (∀ e, testing.dropAndCreateTable (ups, downs, some e) Exec st = (some e, (st, [])))
      ∧ (testing.dropAndCreateTable (ups, downs, none) Exec st).2.2 <+: downs ++ ups
      ∧ (∀ e, (testing.dropAndCreateTable (ups, downs, none) Exec st).1 = some e →
          ∃ pre sql post st1, downs ++ ups = pre ++ sql :: post ∧
            testing.execAllOk Exec pre st = some st1 ∧ (Exec st1 sql).1 = some e ∧
            (testing.dropAndCreateTable (ups, downs, none) Exec st).2.2 = pre ++ [sql])
      ∧ ((testing.dropAndCreateTable (ups, downs, none) Exec st).1 = none →
          (testing.dropAndCreateTable (ups, downs, none) Exec st).2.2 = downs ++ ups ∧
            testing.execAllOk Exec (downs ++ ups) st =
              some (testing.dropAndCreateTable (ups, downs, none) Exec st).2.1)
      ∧ ((testing.dropAndCreateTable (ups, downs, err) Exec st).1 = none ↔
          err = none ∧ (testing.execAllOk Exec (downs ++ ups) st).isSome)
      ∧ (testing.execAllOk Exec downs st = none →
          (testing.dropAndCreateTable (ups, downs, none) Exec st).2.2 <+: downs) := by
  have hcases : ∀ l : List String,
      (∃ st', testing.execAllOk Exec l st = some st' ∧
        testing.dropAndCreateTable.loop Exec l (st, []) = (none, (st', l))) ∨
      (∃ pre sql post st1 e, l = pre ++ sql :: post ∧
        testing.execAllOk Exec pre st = some st1 ∧ (Exec st1 sql).1 = some e ∧
        testing.execAllOk Exec l st = none ∧
        testing.dropAndCreateTable.loop Exec l (st, []) =
          (some e, ((Exec st1 sql).2, pre ++ [sql]))) := by
    intro l
    cases h : testing.execAllOk Exec l st with
    | some st' =>
      left
      exact ⟨st', rfl, by simpa using testing.loop_of_ok Exec l st st' [] h⟩
    | none =>
      right
      obtain ⟨pre, sql, post, st1, e, h1, h2, h3, h4⟩ := testing.loop_of_fail Exec l st [] h
      exact ⟨pre, sql, post, st1, e, h1, h2, h3, rfl, by simpa using h4⟩
  refine ⟨fun e => rfl, ?_, ?_, ?_, ?_, ?_⟩
  · rw [testing.dropAndCreateTable_eq_loop]
    rcases hcases (downs ++ ups) with ⟨st', _, hl⟩ | ⟨pre, sql, post, st1, e, hs, _, _, _, hl⟩
    · rw [hl]
    · rw [hl, hs]
      exact ⟨post, by simp⟩
  · intro e he
    rw [testing.dropAndCreateTable_eq_loop] at he ⊢
    rcases hcases (downs ++ ups) with ⟨st', _, hl⟩ | ⟨pre, sql, post, st1, e', hs, hp, hx, _, hl⟩
    · rw [hl] at he; cases he
    · rw [hl] at he ⊢
      simp only [Option.some.injEq] at he
      subst he
      exact ⟨pre, sql, post, st1, hs, hp, hx, rfl⟩
  · intro hnone
    rw [testing.dropAndCreateTable_eq_loop] at hnone ⊢
    rcases hcases (downs ++ ups) with ⟨st', hok, hl⟩ | ⟨pre, sql, post, st1, e', _, _, _, _, hl⟩
    · rw [hl, hok]
      exact ⟨rfl, rfl⟩
    · rw [hl] at hnone; cases hnone
  · cases err with
    | some e => simp [testing.dropAndCreateTable]
    | none =>
      rw [testing.dropAndCreateTable_eq_loop]
      rcases hcases (downs ++ ups) with ⟨st', hok, hl⟩ | ⟨pre, sql, post, st1, e', _, _, _, hf, hl⟩
      · rw [hl, hok]; simp
      · rw [hl, hf]; simp
  · intro hdown
    simp only [testing.dropAndCreateTable]
    rcases hcases downs with ⟨st', hok, _⟩ | ⟨pre, sql, post, st1, e', hs, _, _, _, hl⟩
    · rw [hok] at hdown; cases hdown
    · rw [hl]
      simp only
      rw [hs]
      exact ⟨post, by simp⟩

/-! ### `verifyNoEmptyColumns`: the check of one table -/

namespace testing

theorem lookup_cons_ite (x k : String) (v : Bool) (rest : List (String × Bool)) :
    List.lookup x ((k, v) :: rest) = if x = k then some v else rest.lookup x := by
  rw [List.lookup_cons]
  by_cases h : x = k
  · simp [h]
  · have hb : (x == k) = false := by simpa using h
    simp [hb, h]

theorem lookup_nilColumnsSet (m : List (String × Bool)) (k : String) (v : Bool)
    (x : String) :
    (nilColumnsSet m k v).lookup x = if x = k then some v else m.lookup x := by
  induction m with
  | nil => simp [nilColumnsSet, lookup_cons_ite]
  | cons kv rest ih =>
    obtain ⟨k', v'⟩ := kv
    simp only [nilColumnsSet]
    by_cases hk : k' = k
    · subst hk
      simp only [if_true, lookup_cons_ite]
      by_cases hx : x = k' <;> simp [hx]
    · simp only [hk, if_false, lookup_cons_ite, ih]
      by_cases hx : x = k'
      · subst hx
        simp [hk]
      · simp [hx]

theorem mem_keys_nilColumnsSet (m : List (String × Bool)) (k : String) (v : Bool)
    (x : String) :
    x ∈ (nilColumnsSet m k v).map Prod.fst ↔ x ∈ m.map Prod.fst ∨ x = k := by
  induction m with
  | nil => simp [nilColumnsSet]
  | cons kv rest ih =>
    obtain ⟨k', v'⟩ := kv
    simp only [nilColumnsSet]
    by_cases hk : k' = k
    · subst hk
      simp only [if_true, List.map_cons, List.mem_cons]
      tauto
    · simp only [hk, if_false, List.map_cons, List.mem_cons, ih]
      tauto

theorem nodup_keys_nilColumnsSet (m : List (String × Bool)) (k : String) (v : Bool)
    (h : (m.map Prod.fst).Nodup) : ((nilColumnsSet m k v).map Prod.fst).Nodup := by
  induction m with
  | nil => simp [nilColumnsSet]
  | cons kv rest ih =>
    obtain ⟨k', v'⟩ := kv
    simp only [List.map_cons, List.nodup_cons] at h
    simp only [nilColumnsSet]
    by_cases hk : k' = k
    · subst hk
      simp only [if_true, List.map_cons, List.nodup_cons]
      exact h
    · simp only [hk, if_false, List.map_cons, List.nodup_cons]
      refine ⟨fun hmem => ?_, ih h.2⟩
      rcases (mem_keys_nilColumnsSet rest k v k').1 hmem with h1 | h1
      · exact h.1 h1
      · exact hk h1

theorem mem_iff_lookup (m : List (String × Bool)) (h : (m.map Prod.fst).Nodup)
    (x : String) (b : Bool) : (x, b) ∈ m ↔ m.lookup x = some b := by
  induction m with
  | nil => simp [List.lookup]
  | cons kv rest ih =>
    obtain ⟨k', v'⟩ := kv
    simp only [List.map_cons, List.nodup_cons] at h
    rw [lookup_cons_ite]
    by_cases hx : x = k'
    · subst hx
      simp only [List.mem_cons, Prod.mk.injEq, true_and, if_true, Option.some.injEq]
      constructor
      · rintro (h1 | h1)
        · exact h1.symm
        · exact absurd (List.mem_map.2 ⟨(x, b), h1, rfl⟩) h.1
      · intro h1; exact Or.inl h1.symm
    · simp only [List.mem_cons, Prod.mk.injEq, hx, false_and, false_or, if_false]
      exact ih h.2

theorem markColumns_spec (skip : Bool) (cols : ColumnList) :
    ∀ (m : List (String × Bool)), (m.map Prod.fst).Nodup →
      ((markColumns skip cols m).map Prod.fst).Nodup ∧
      ∀ x, (markColumns skip cols m).lookup x = some true ↔
        m.lookup x = some true ∨
          ∃ c ∈ cols, c.Name = x ∧ (skip = true ∨ c.IgnoreInTests = false) := by
  induction cols with
  | nil => intro m h; simp [markColumns, h]
  | cons c cs ih =>
    intro m h
    simp only [markColumns]
    by_cases hc : (skip || !c.IgnoreInTests) = true
    · rw [if_pos hc]
      obtain ⟨hn, hl⟩ := ih (nilColumnsSet m c.Name true) (nodup_keys_nilColumnsSet _ _ _ h)
      refine ⟨hn, fun x => ?_⟩
      rw [hl, lookup_nilColumnsSet]
      have hc' : skip = true ∨ c.IgnoreInTests = false := by simpa using hc
      by_cases hx : x = c.Name
      · simp only [hx, if_true, true_or, true_iff]
        exact Or.inr ⟨c, List.mem_cons_self _ _, rfl, hc'⟩
      · simp only [hx, if_false, List.mem_cons, exists_eq_or_imp]
        have : ¬ (c.Name = x) := fun e => hx e.symm
        constructor
        · rintro (h1 | h1)
          · exact Or.inl h1
          · exact Or.inr (Or.inr h1)
        · rintro (h1 | ⟨h1, _⟩ | h1)
          · exact Or.inl h1
          · exact absurd h1 this
          · exact Or.inr h1
    · rw [if_neg hc]
      obtain ⟨hn, hl⟩ := ih m h
      refine ⟨hn, fun x => ?_⟩
      rw [hl]
      have hc' : ¬ (skip = true ∨ c.IgnoreInTests = false) := by
        intro h'
        apply hc
        rcases h' with h' | h' <;> simp [h']
      simp only [List.mem_cons, exists_eq_or_imp]
      constructor
      · rintro (h1 | h1)
        · exact Or.inl h1
        · exact Or.inr (Or.inr h1)
      · rintro (h1 | ⟨_, h1⟩ | h1)
        · exact Or.inl h1
        · exact absurd h1 hc'
        · exact Or.inr h1

theorem clearRow_spec (row : Row) :
    ∀ (m : List (String × Bool)), (m.map Prod.fst).Nodup →
      ((clearRow row m).map Prod.fst).Nodup ∧
      ∀ x, (clearRow row m).lookup x = some true ↔
        m.lookup x = some true ∧ ∀ kv ∈ row, kv.1 = x → kv.2 = none := by
  induction row with
  | nil => intro m h; simp [clearRow, h]
  | cons kv rest ih =>
    intro m h
    obtain ⟨c, v⟩ := kv
    simp only [clearRow]
    by_cases hv : v = none
    · subst hv
      simp only [ne_eq, not_true_eq_false, if_false]
      obtain ⟨hn, hl⟩ := ih m h
      refine ⟨hn, fun x => ?_⟩
      rw [hl]
      simp only [List.mem_cons, forall_eq_or_imp, implies_true, true_and]
    · simp only [ne_eq, hv, not_false_eq_true, if_true]
      obtain ⟨hn, hl⟩ := ih (nilColumnsSet m c false) (nodup_keys_nilColumnsSet _ _ _ h)
      refine ⟨hn, fun x => ?_⟩
      rw [hl, lookup_nilColumnsSet]
      simp only [List.mem_cons, forall_eq_or_imp]
      by_cases hx : x = c
      · subst hx
        simp [hv]
      · have : ¬ (c = x) := fun e => hx e.symm
        simp only [hx, if_false, this, false_implies, true_and]

theorem clearRows_spec (data : List Row) :
    ∀ (m : List (String × Bool)), (m.map Prod.fst).Nodup →
      ((clearRows data m).map Prod.fst).Nodup ∧
      ∀ x, (clearRows data m).lookup x = some true ↔
        m.lookup x = some true ∧ ∀ row ∈ data, ∀ kv ∈ row, kv.1 = x → kv.2 = none := by
  induction data with
  | nil => intro m h; simp [clearRows, h]
  | cons row rest ih =>
    intro m h
    simp only [clearRows]
    obtain ⟨hn1, hl1⟩ := clearRow_spec row m h
    obtain ⟨hn, hl⟩ := ih (clearRow row m) hn1
    refine ⟨hn, fun x => ?_⟩
    rw [hl, hl1]
    simp only [List.mem_cons, forall_eq_or_imp]
    tauto

theorem mem_nilColumnsArr (skip : Bool) (cols : ColumnList) (data : List Row) (x : String) :
    x ∈ nilColumnsArr skip cols data ↔
      (∃ c ∈ cols, c.Name = x ∧ (skip = true ∨ c.IgnoreInTests = false)) ∧
        ∀ row ∈ data, ∀ kv ∈ row, kv.1 = x → kv.2 = none := by
  obtain ⟨hn0, hl0⟩ := markColumns_spec skip cols [] (by simp)
  obtain ⟨hn, hl⟩ := clearRows_spec data (markColumns skip cols []) hn0
  have hmem : x ∈ nilColumnsArr skip cols data ↔
      (x, true) ∈ clearRows data (markColumns skip cols []) := by
    unfold nilColumnsArr
    simp only [List.mem_map, List.mem_filter]
    constructor
    · rintro ⟨⟨k, b⟩, ⟨hkv, hb⟩, rfl⟩
      simp only at hb
      subst hb
      exact hkv
    · intro h
      exact ⟨(x, true), ⟨h, rfl⟩, rfl⟩
  rw [hmem, mem_iff_lookup _ hn, hl, hl0]
  simp [List.lookup]

end testing

namespace testing

theorem verifyNoEmptyColumns_eq (conn : Querier) (skip : Bool) (t : Table) :
    verifyNoEmptyColumns conn skip t =
      if (!skip && t.IgnoreInTests) = true then []
      else
        match conn t.Name with
        | .error err => [.fatal t.Name err]
        | .ok data =>
          if data.length = 0 then [.zeroEntries t.Name]
          else (checkTable skip t data).toList ++
            verifyNoEmptyColumns.relations conn skip t.Relations := by
  cases t
  simp only [verifyNoEmptyColumns, Table.Name, Table.IgnoreInTests, Table.Relations]

theorem verifyNoEmptyColumns_relations_cons (conn : Querier) (skip : Bool) (t : Table)
    (ts : List Table) :
    verifyNoEmptyColumns.relations conn skip (t :: ts) =
      verifyNoEmptyColumns conn skip t ++ verifyNoEmptyColumns.relations conn skip ts := by
  simp [verifyNoEmptyColumns.relations]

theorem markColumns_filter (cols : ColumnList) :
    ∀ m, markColumns false (cols.filter (fun c => !c.IgnoreInTests)) m =
      markColumns false cols m := by
  induction cols with
  | nil => intro m; rfl
  | cons c cs ih =>
    intro m
    by_cases hc : c.IgnoreInTests = true
    · simp [List.filter_cons, markColumns, hc, ih]
    · have hc' : c.IgnoreInTests = false := by simpa using hc
      simp [List.filter_cons, markColumns, hc', ih]

theorem checkTable_isSome_iff (skip : Bool) (table : Table) (data : List Row) :
    (checkTable skip table data).isSome ↔
      data = [] ∨ ∃ c ∈ table.Columns, (skip = true ∨ c.IgnoreInTests = false) ∧
        ∀ row ∈ data, ∀ kv ∈ row, kv.1 = c.Name → kv.2 = none := by
  unfold checkTable
  by_cases hd : data = []
  · simp [hd]
  · have hlen : ¬ data.length = 0 := by simpa using hd
    simp only [hlen, if_false, hd, false_or]
    by_cases harr : nilColumnsArr skip table.Columns data = []
    · simp only [harr, List.length_nil, ne_eq, not_true_eq_false, if_false,
        Option.isSome_none, Bool.false_eq_true, false_iff]
      rintro ⟨c, hc, hex, hnil⟩
      have : c.Name ∈ nilColumnsArr skip table.Columns data :=
        (mem_nilColumnsArr skip table.Columns data c.Name).2 ⟨⟨c, hc, rfl, hex⟩, hnil⟩
      rw [harr] at this
      cases this
    · have hlen' : (nilColumnsArr skip table.Columns data).length ≠ 0 := by simpa using harr
      simp only [hlen', if_true, Option.isSome_some, true_iff, ne_eq, not_false_eq_true]
      obtain ⟨x, hx⟩ := List.exists_mem_of_ne_nil _ harr
      obtain ⟨⟨c, hc, rfl, hex⟩, hnil⟩ := (mem_nilColumnsArr skip table.Columns data x).1 hx
      exact ⟨c, hc, hex, hnil⟩

end testing

/-- C5: `verifyNoEmptyColumns` on one table that is not skipped and whose rows
`data` were read: the failures of the run are the failure of that table, if
any, followed (unless the table has zero rows) by those of its relations; a
failure is reported for the table exactly when it has zero rows or some column
that is not exempt (`shouldSkipIgnoreInTest` or not `IgnoreInTests`) is nil or
absent in every row; the columns named in the report are names of columns
that are not exempt, and with `shouldSkipIgnoreInTest` false the report is the
one of the table without its `IgnoreInTests` columns. -/
theorem verifyNoEmptyColumns_table_error_iff (conn : testing.Querier) (skip : Bool)
    (table : Table) (data : List testing.Row)
    (hskip : (!skip && table.IgnoreInTests) = false)
    (hdata : conn table.Name = .ok data) :
    testing.verifyNoEmptyColumns conn skip table =
        (testing.checkTable skip table data).toList ++
          (if data.length = 0 then []
            else testing.verifyNoEmptyColumns.relations conn skip table.Relations)
      ∧ ((testing.checkTable skip table data).isSome ↔
          data = [] ∨ ∃ c ∈ table.Columns, (skip = true ∨ c.IgnoreInTests = false) ∧
            ∀ row ∈ data, ∀ kv ∈ row, kv.1 = c.Name → kv.2 = none)
      ∧ (∀ cols, testing.checkTable skip table data = some (.nilColumn table.Name cols) →
          ∀ x ∈ cols, ∃ c ∈ table.Columns, c.Name = x ∧
            (skip = true ∨ c.IgnoreInTests = false))
      ∧ (skip = false →
          testing.checkTable skip
              (.mk table.Name (table.Columns.filter (fun c => !c.IgnoreInTests))
                table.Relations table.IgnoreInTests) data =
            testing.checkTable skip table data) := by
  refine ⟨?_, testing.checkTable_isSome_iff skip table data, ?_, ?_⟩
  · rw [testing.verifyNoEmptyColumns_eq, hskip, hdata]
    simp only [Bool.false_eq_true, if_false]
    by_cases hd : data.length = 0
    · simp [hd, testing.checkTable]
    · simp [hd]
  · intro cols hcols x hx
    unfold testing.checkTable at hcols
    by_cases hd : data.length = 0
    · simp [hd] at hcols
    · simp only [hd, if_false] at hcols
      split at hcols
      · simp only [Option.some.injEq, testing.Report.nilColumn.injEq, true_and] at hcols
        subst hcols
        exact ((testing.mem_nilColumnsArr skip table.Columns data x).1 hx).1
      · cases hcols
  · intro hs
    subst hs
    simp only [testing.checkTable, testing.nilColumnsArr, Table.Name, Table.Columns,
      testing.markColumns_filter]

/-- Witness of C5: the table `users` with one row whose exempt column `notes`
is nil and whose column `id` is set. -/
theorem verifyNoEmptyColumns_table_error_iff_witness :
    (!false && examples.usersWithNotes.IgnoreInTests) = false
      ∧ examples.usersWithNotesConn examples.usersWithNotes.Name =
          .ok examples.usersWithNotesData
      ∧ testing.verifyNoEmptyColumns examples.usersWithNotesConn false
          examples.usersWithNotes = []
      ∧ ((testing.checkTable false examples.usersWithNotes
            examples.usersWithNotesData).isSome ↔
          examples.usersWithNotesData = [] ∨
            ∃ c ∈ examples.usersWithNotes.Columns,
              (false = true ∨ c.IgnoreInTests = false) ∧
                ∀ row ∈ examples.usersWithNotesData, ∀ kv ∈ row,
                  kv.1 = c.Name → kv.2 = none) :=
  ⟨by decide, by decide, by decide,
    (verifyNoEmptyColumns_table_error_iff examples.usersWithNotesConn false
      examples.usersWithNotes examples.usersWithNotesData (by decide) (by decide)).2.1⟩

/-! ### `verifyNoEmptyColumns`: the relation tree -/

namespace testing

theorem relations_ne_nil (conn : Querier) (skip : Bool) (ts : List Table) (c : Table)
    (hc : c ∈ ts) (h : verifyNoEmptyColumns conn skip c ≠ []) :
    verifyNoEmptyColumns.relations conn skip ts ≠ [] := by
  induction ts with
  | nil => cases hc
  | cons t ts ih =>
    rw [verifyNoEmptyColumns_relations_cons]
    rcases List.mem_cons.1 hc with rfl | hc
    · simp [h]
    · have := ih hc
      simp [this]

theorem verifyNoEmptyColumns_ne_nil_of_path (conn : Querier) (p : List Nat) :
    ∀ (root T : Table) (data : List Row),
      root.subtable? p = some T → root.pathChecked p = true →
      conn T.Name = .ok data →
      (data = [] ∨ ∃ c ∈ T.Columns, c.IgnoreInTests = false ∧
        ∀ row ∈ data, ∀ kv ∈ row, kv.1 = c.Name → kv.2 = none) →
      verifyNoEmptyColumns conn false root ≠ [] := by
  induction p with
  | nil =>
    intro root T data hT hpath hdata hbad
    simp only [Table.subtable?, Option.some.injEq] at hT
    subst hT
    simp only [Table.pathChecked, Bool.not_eq_true'] at hpath
    rw [verifyNoEmptyColumns_eq, hdata, hpath]
    simp only [Bool.not_false, Bool.and_false, Bool.false_eq_true, if_false]
    by_cases hd : data.length = 0
    · simp [hd]
    · simp only [hd, if_false]
      have hsome : (checkTable false root data).isSome :=
        (checkTable_isSome_iff false root data).2
          (hbad.imp id (fun ⟨c, hc, hi, hn⟩ => ⟨c, hc, Or.inr hi, hn⟩))
      obtain ⟨r, hr⟩ := Option.isSome_iff_exists.1 hsome
      simp [hr]
  | cons i p ih =>
    intro root T data hT hpath hdata hbad
    rw [Table.subtable?_cons] at hT
    simp only [Table.pathChecked, Bool.and_eq_true, Bool.not_eq_true'] at hpath
    obtain ⟨hroot, hrest⟩ := hpath
    cases hc : root.Relations[i]? with
    | none => rw [hc] at hT; simp at hT
    | some c =>
      rw [hc] at hT hrest
      simp only [Option.some_bind] at hT
      have hchild := ih c T data hT hrest hdata hbad
      rw [verifyNoEmptyColumns_eq, hroot]
      simp only [Bool.not_false, Bool.and_false, Bool.false_eq_true, if_false]
      cases conn root.Name with
      | error e => simp
      | ok d =>
        simp only
        by_cases hd : d.length = 0
        · simp [hd]
        · simp only [hd, if_false]
          have := relations_ne_nil conn false root.Relations c (List.getElem?_mem hc) hchild
          simp [this]

theorem verifyNoEmptyColumns_ignored (conn : Querier) (t : Table)
    (h : t.IgnoreInTests = true) : verifyNoEmptyColumns conn false t = [] := by
  rw [verifyNoEmptyColumns_eq, h]
  simp

end testing

/-- Counterexample to C6: `events`, a relation of a table marked
`IgnoreInTests`, is not marked itself and has no rows, and the run reports
nothing. -/
theorem verifyNoEmptyColumns_skips_relations_of_ignored :
    examples.events ∈ providertest.getTablesFromMainTable examples.ignoredAccounts
      ∧ examples.events.IgnoreInTests = false
      ∧ examples.accountsConn examples.events.Name = .ok []
      ∧ testing.verifyNoEmptyColumns examples.accountsConn false
          examples.ignoredAccounts = [] := by
  refine ⟨?_, by decide, by decide, by decide⟩
  simp [examples.ignoredAccounts, examples.events, providertest.getTablesFromMainTable,
    providertest.getTablesFromRelations]

/-- C6, amended: with `shouldSkipIgnoreInTest` false, for every table of the
tree such that neither the table nor any table above it is marked
`IgnoreInTests`, if the table has no rows, or has a column not marked
`IgnoreInTests` that is nil or absent in every row, then the run reports a
failure; a table marked `IgnoreInTests` is skipped together with its
relations. -/
theorem verifyNoEmptyColumns_reports_unskipped (conn : testing.Querier)
    (root T : Table) (p : List Nat) (data : List testing.Row)
    (hT : root.subtable? p = some T) (hpath : root.pathChecked p = true)
    (hdata : conn T.Name = .ok data)
    (hbad : data = [] ∨ ∃ c ∈ T.Columns, c.IgnoreInTests = false ∧
      ∀ row ∈ data, ∀ kv ∈ row, kv.1 = c.Name → kv.2 = none) :
    testing.verifyNoEmptyColumns conn false root ≠ []
      ∧ (∀ t : Table, t.IgnoreInTests = true →
          testing.verifyNoEmptyColumns conn false t = []) :=
  ⟨testing.verifyNoEmptyColumns_ne_nil_of_path conn p root T data hT hpath hdata hbad,
    fun t h => testing.verifyNoEmptyColumns_ignored conn t h⟩

/-- Witness of the amended C6: `events` without rows under `accounts`, neither
marked `IgnoreInTests`. -/
theorem verifyNoEmptyColumns_reports_unskipped_witness :
    examples.accounts.subtable? [0] = some examples.events
      ∧ examples.accounts.pathChecked [0] = true
      ∧ examples.accountsConn examples.events.Name = .ok []
      ∧ testing.verifyNoEmptyColumns examples.accountsConn false examples.accounts ≠ [] :=
  ⟨by rfl, by decide, by decide,
    (verifyNoEmptyColumns_reports_unskipped examples.accountsConn examples.accounts
      examples.events [0] [] (by rfl) (by decide) (by decide) (Or.inl rfl)).1⟩

/-! ### Answers of the store -/

namespace providertest

theorem queryFails_of_answer (conn : Querier) (table : String) (columns : List String)
    (rows : List Row)
    (h : conn (selectColumnsIsNull table columns).1 = .ok (rowsAllNull rows columns)) :
    queryFails conn table columns = true ↔
      ∃ r ∈ rows, ∀ c ∈ columns, r.isNull c = true := by
  simp only [queryFails, h, rowsAllNull, decide_eq_true_eq, ne_eq]
  constructor
  · intro hne
    obtain ⟨r, hr⟩ := List.exists_mem_of_ne_nil _ hne
    rw [List.mem_filter] at hr
    exact ⟨r, hr.1, by simpa using hr.2⟩
  · rintro ⟨r, hr, hall⟩ hnil
    have : r ∈ rows.filter (fun r => columns.all r.isNull) :=
      List.mem_filter.2 ⟨hr, by simpa using hall⟩
    rw [hnil] at this
    cases this

end providertest

/-! ### `verifyOptionalQuery` -/

namespace providertest

theorem optional_tables_cons (conn : Querier) (order : String → List String → List String)
    (tc : ResourceTestData) (t : Table) (ts : List Table) :
    verifyOptionalQuery.tables conn order tc (t :: ts) =
      if queryFails conn t.Name (order t.Name (verifyOptionalQuery.columnsMap tc t)) = true
      then true
      else verifyOptionalQuery.tables conn order tc ts := by
  simp only [verifyOptionalQuery.tables, QueryTemplate.Query, queryFails]
  split
  · rename_i e cols heq
    simp only [Prod.mk.injEq] at heq
    simp [heq.1]
  · rename_i rows cols heq
    simp only [Prod.mk.injEq] at heq
    by_cases h : rows = []
    · simp [heq.1, h]
    · simp [heq.1, h]

theorem optional_tables_fails_iff (conn : Querier)
    (order : String → List String → List String) (tc : ResourceTestData)
    (ts : List Table) :
    verifyOptionalQuery.tables conn order tc ts = true ↔
      ∃ t ∈ ts,
        queryFails conn t.Name (order t.Name (verifyOptionalQuery.columnsMap tc t)) = true := by
  induction ts with
  | nil => simp [verifyOptionalQuery.tables]
  | cons t ts ih =>
    rw [optional_tables_cons]
    by_cases h :
        queryFails conn t.Name (order t.Name (verifyOptionalQuery.columnsMap tc t)) = true
    · simp [h]
    · simp [h, ih]

theorem optional_queryFails_iff (conn : Querier)
    (order : String → List String → List String) (rows : List Row)
    (tc : ResourceTestData) (T : Table)
    (horder : ∀ n l, (order n l).Perm l)
    (hne : verifyOptionalQuery.columnsMap tc T ≠ [])
    (hconn : ∀ cols, cols.Perm (verifyOptionalQuery.columnsMap tc T) → cols ≠ [] →
      conn (selectColumnsIsNull T.Name cols).1 = .ok (rowsAllNull rows cols)) :
    queryFails conn T.Name (order T.Name (verifyOptionalQuery.columnsMap tc T)) = true ↔
      ∃ r ∈ rows, ∀ c ∈ verifyOptionalQuery.columnsMap tc T, r.isNull c = true := by
  have hperm := horder T.Name (verifyOptionalQuery.columnsMap tc T)
  have hne' : order T.Name (verifyOptionalQuery.columnsMap tc T) ≠ [] := by
    intro e
    rw [e] at hperm
    exact hne (List.perm_nil.1 hperm.symm)
  rw [queryFails_of_answer conn T.Name _ rows (hconn _ hperm hne')]
  constructor
  · rintro ⟨r, hr, hall⟩
    exact ⟨r, hr, fun c hc => hall c (hperm.mem_iff.2 hc)⟩
  · rintro ⟨r, hr, hall⟩
    exact ⟨r, hr, fun c hc => hall c (hperm.mem_iff.1 hc)⟩

end providertest

/-- C2: `verifyOptionalQuery` on the test data as supplied. The columns it
queries for a table are, without repetition, exactly the names of the columns
of the table that are neither in `Optional` nor in a group of `AtLeastOne` for
the table; and on a store that answers the statement of every table of the
tree (in whichever order the columns are listed) with the rows in which all
these columns are null, when every table has such a column, the check fails
the test exactly when some table of the tree has a row in which all of them
are null. -/
theorem verifyOptionalQuery_fails_iff (conn : providertest.Querier)
    (order : String → List String → List String)
    (db : String → List providertest.Row) (tc : providertest.ResourceTestData)
    (horder : ∀ n l, (order n l).Perm l)
    (hnonempty : ∀ T ∈ providertest.getTablesFromMainTable tc.Table,
      providertest.verifyOptionalQuery.columnsMap tc T ≠ [])
    (hconn : ∀ T ∈ providertest.getTablesFromMainTable tc.Table, ∀ cols,
      cols.Perm (providertest.verifyOptionalQuery.columnsMap tc T) → cols ≠ [] →
        conn (providertest.selectColumnsIsNull T.Name cols).1 =
          .ok (providertest.rowsAllNull (db T.Name) cols)) :
    (∀ (T : Table) (x : String),
        x ∈ providertest.verifyOptionalQuery.columnsMap tc T ↔
          (∃ c ∈ T.Columns, c.Name = x) ∧ x ∉ tc.Optional T.Name ∧
            ∀ g ∈ tc.AtLeastOne T.Name, x ∉ g)
      ∧ (∀ T : Table, (providertest.verifyOptionalQuery.columnsMap tc T).Nodup)
      ∧ (providertest.verifyOptionalQuery conn order tc = true ↔
          ∃ T ∈ providertest.getTablesFromMainTable tc.Table, ∃ r ∈ db T.Name,
            ∀ c ∈ providertest.verifyOptionalQuery.columnsMap tc T, r.isNull c = true) := by
  refine ⟨providertest.mem_columnsMap tc, providertest.nodup_columnsMap tc, ?_⟩
  unfold providertest.verifyOptionalQuery
  rw [providertest.optional_tables_fails_iff]
  constructor
  · rintro ⟨T, hT, hq⟩
    exact ⟨T, hT, (providertest.optional_queryFails_iff conn order (db T.Name) tc T horder
      (hnonempty T hT) (hconn T hT)).1 hq⟩
  · rintro ⟨T, hT, hr⟩
    exact ⟨T, hT, (providertest.optional_queryFails_iff conn order (db T.Name) tc T horder
      (hnonempty T hT) (hconn T hT)).2 hr⟩

namespace examples

theorem getTables_users : providertest.getTablesFromMainTable users = [users] := by
  simp [users, providertest.getTablesFromMainTable, providertest.getTablesFromRelations]

theorem usersOptional_columns :
    providertest.verifyOptionalQuery.columnsMap usersOptionalData users = ["id"] := by
  decide

theorem usersOptional_answers (rows : List providertest.Row) :
    ∀ T ∈ providertest.getTablesFromMainTable usersOptionalData.Table, ∀ cols,
      cols.Perm (providertest.verifyOptionalQuery.columnsMap usersOptionalData T) →
      cols ≠ [] →
        store "users" rows [["id"]] (providertest.selectColumnsIsNull T.Name cols).1 =
          .ok (providertest.rowsAllNull (single "users" rows T.Name) cols) := by
  intro T hT cols hperm _
  have hT' : T = users := by
    have : T ∈ [users] := getTables_users ▸ hT
    simpa using this
  subst hT'
  rw [usersOptional_columns] at hperm
  rw [List.perm_singleton.1 hperm]
  rfl

end examples

/-- Witness of C2: `users` with `name` optional and the group `[email, phone]`;
the only column queried is `id`, a row without `id` fails the check and a row
with an `id` passes it. -/
theorem verifyOptionalQuery_fails_iff_witness :
    providertest.verifyOptionalQuery.columnsMap examples.usersOptionalData examples.users
        = ["id"]
      ∧ providertest.verifyOptionalQuery
          (examples.store "users" [examples.rowNoId] [["id"]]) (fun _ l => l)
          examples.usersOptionalData = true
      ∧ providertest.verifyOptionalQuery
          (examples.store "users" [examples.rowNoName] [["id"]]) (fun _ l => l)
          examples.usersOptionalData = false :=
  ⟨by decide,
    (verifyOptionalQuery_fails_iff (examples.store "users" [examples.rowNoId] [["id"]])
      (fun _ l => l) (examples.single "users" [examples.rowNoId])
      examples.usersOptionalData (fun _ l => List.Perm.refl l) (by decide)
      (examples.usersOptional_answers [examples.rowNoId])).2.2.2 (by decide),
    Bool.eq_false_iff.2 (fun h =>
      absurd ((verifyOptionalQuery_fails_iff
        (examples.store "users" [examples.rowNoName] [["id"]])
        (fun _ l => l) (examples.single "users" [examples.rowNoName])
        examples.usersOptionalData (fun _ l => List.Perm.refl l) (by decide)
        (examples.usersOptional_answers [examples.rowNoName])).2.2.1 h) (by decide))⟩

/-- Counterexample to C3: in `users`, with one row, the column `name` is
neither optional nor in a group and is null in every row; the store answers
the completeness statement, in either column order, with the rows in which
`id` and `name` are both null, of which there is none, and the check passes. -/
theorem verifyOptionalQuery_misses_null_column :
    providertest.getTablesFromMainTable examples.usersData.Table = [examples.users]
      ∧ (∃ c ∈ examples.users.Columns, c.Name = "name" ∧
          c.Name ∉ examples.usersData.Optional "users" ∧
          (∀ g ∈ examples.usersData.AtLeastOne "users", c.Name ∉ g) ∧
          ∀ r ∈ [examples.rowNoName], providertest.Row.isNull r c.Name = true)
      ∧ (∀ cols ∈ [["id", "name"], ["name", "id"]],
          examples.usersNoNameConn (providertest.selectColumnsIsNull "users" cols).1 =
            .ok (providertest.rowsAllNull [examples.rowNoName] cols))
      ∧ providertest.verifyOptionalQuery examples.usersNoNameConn (fun _ l => l)
          examples.usersData = false
      ∧ providertest.verifyOptionalQuery examples.usersNoNameConn
          (fun _ l => l.reverse) examples.usersData = false := by
  refine ⟨examples.getTables_users, by decide, by decide, by decide, by decide⟩

/-- C3, amended: for every table of the tree that has a column neither listed
in `Optional` nor in one of its at-least-one groups, on a store that answers
the completeness statement of that table with the rows in which all the
queried columns are null, if some row of the table has all of these columns
null, `verifyOptionalQuery` fails the test. -/
theorem verifyOptionalQuery_fails_of_null_row (conn : providertest.Querier)
    (order : String → List String → List String)
    (db : String → List providertest.Row) (tc : providertest.ResourceTestData)
    (T : Table)
    (horder : ∀ n l, (order n l).Perm l)
    (hT : T ∈ providertest.getTablesFromMainTable tc.Table)
    (hreq : ∃ c ∈ T.Columns, c.Name ∉ tc.Optional T.Name ∧
      ∀ g ∈ tc.AtLeastOne T.Name, c.Name ∉ g)
    (hconn : ∀ cols, cols.Perm (providertest.verifyOptionalQuery.columnsMap tc T) →
      cols ≠ [] →
        conn (providertest.selectColumnsIsNull T.Name cols).1 =
          .ok (providertest.rowsAllNull (db T.Name) cols))
    (hrow : ∃ r ∈ db T.Name, ∀ c ∈ T.Columns, c.Name ∉ tc.Optional T.Name →
      (∀ g ∈ tc.AtLeastOne T.Name, c.Name ∉ g) → r.isNull c.Name = true) :
    providertest.verifyOptionalQuery conn order tc = true := by
  unfold providertest.verifyOptionalQuery
  rw [providertest.optional_tables_fails_iff]
  refine ⟨T, hT, ?_⟩
  have hne : providertest.verifyOptionalQuery.columnsMap tc T ≠ [] := by
    obtain ⟨c, hc, hopt, hgrp⟩ := hreq
    have : c.Name ∈ providertest.verifyOptionalQuery.columnsMap tc T :=
      (providertest.mem_columnsMap tc T c.Name).2 ⟨⟨c, hc, rfl⟩, hopt, hgrp⟩
    exact List.ne_nil_of_mem this
  rw [providertest.optional_queryFails_iff conn order (db T.Name) tc T horder hne hconn]
  obtain ⟨r, hr, hall⟩ := hrow
  refine ⟨r, hr, fun x hx => ?_⟩
  obtain ⟨⟨c, hc, rfl⟩, hopt, hgrp⟩ := (providertest.mem_columnsMap tc T x).1 hx
  exact hall c hc hopt hgrp

/-- Witness of the amended C3: `users` with `name` optional and a row
without `id`. -/
theorem verifyOptionalQuery_fails_of_null_row_witness :
    providertest.verifyOptionalQuery
      (examples.store "users" [examples.rowNoId] [["id"]]) (fun _ l => l)
      examples.usersOptionalData = true :=
  verifyOptionalQuery_fails_of_null_row
    (examples.store "users" [examples.rowNoId] [["id"]]) (fun _ l => l)
    (examples.single "users" [examples.rowNoId]) examples.usersOptionalData examples.users
    (fun _ l => List.Perm.refl l) (examples.getTables_users ▸ List.mem_singleton.2 rfl)
    (by decide)
    (examples.usersOptional_answers [examples.rowNoId] examples.users
      (examples.getTables_users ▸ List.mem_singleton.2 rfl))
    (by decide)

/-- C4 on the code: in `TestResource` on `contacts` with the group
`[email, phone]`, `verifyAtLeastOne` passes and leaves the group holding
`email is null` and `phone is null`; the completeness query of
`verifyOptionalQuery` then lists `id`, `email` and `phone`, where on the data
as supplied it lists `id` alone; and the row without `id` passes the two
checks of `TestResource` although `verifyOptionalQuery` on the data as
supplied fails it. -/
theorem TestResource_queries_group_columns :
    (providertest.verifyAtLeastOne examples.contactsConn examples.contactsData).1 = false
      ∧ (providertest.verifyAtLeastOne examples.contactsConn
          examples.contactsData).2.AtLeastOne "contacts" =
            [["email is null", "phone is null"]]
      ∧ providertest.verifyOptionalQuery.columnsMap
          (providertest.verifyAtLeastOne examples.contactsConn examples.contactsData).2
          examples.contacts = ["id", "email", "phone"]
      ∧ providertest.verifyOptionalQuery.columnsMap examples.contactsData
          examples.contacts = ["id"]
      ∧ providertest.TestResource examples.contactsConn (fun _ l => l)
          examples.contactsData = false
      ∧ providertest.verifyOptionalQuery examples.contactsConn (fun _ l => l)
          examples.contactsData = true := by
  repeat' apply And.intro
  all_goals decide

/-! ### `verifyAtLeastOne` on a shared group -/

/-- C1 on the code: the tree `members` with the relation `admins`, where one
slice `[email, phone]` is the group of both tables. `admins` holds a row in
which `email` and `phone` are null, and the store answers the statement of
the group for `admins` with that row; but rendering the group for `members`
has rewritten the shared elements, the statement rendered for `admins` is
`select * from admins where email is null is null and phone is null is null;`,
which selects no row, and `verifyAtLeastOne` passes. With the same groups
held in two slices it fails the test. -/
theorem verifyAtLeastOne_passes_on_shared_group :
    (providertest.getTablesFromMainTable examples.sharedGroupData.Table).map Table.Name
        = ["members", "admins"]
      ∧ examples.sharedGroupData.AtLeastOne "members" = [["email", "phone"]]
      ∧ examples.sharedGroupData.AtLeastOne "admins" = [["email", "phone"]]
      ∧ (∀ c ∈ ["email", "phone"],
          providertest.Row.isNull examples.adminNoContact c = true)
      ∧ examples.membersConn (providertest.selectColumnsIsNull "members"
          ["email", "phone"]).1 = .ok []
      ∧ examples.membersConn (providertest.selectColumnsIsNull "admins"
          ["email", "phone"]).1 = .ok [examples.adminNoContact]
      ∧ (providertest.selectColumnsIsNull "admins" ["email is null", "phone is null"]).1
          = "select * from admins where email is null is null and phone is null is null;"
      ∧ examples.membersConn (providertest.selectColumnsIsNull "admins"
          ["email is null", "phone is null"]).1 = .ok []
      ∧ (providertest.verifyAtLeastOne examples.membersConn
          examples.sharedGroupData).1 = false
      ∧ (providertest.verifyAtLeastOne examples.membersConn
          examples.sharedGroupData).2.AtLeastOne "admins"
            = [["email is null is null", "phone is null is null"]]
      ∧ examples.separateGroupData.AtLeastOne "members" = [["email", "phone"]]
      ∧ examples.separateGroupData.AtLeastOne "admins" = [["email", "phone"]]
      ∧ (providertest.verifyAtLeastOne examples.membersConn
          examples.separateGroupData).1 = true := by
  repeat' apply And.intro
  all_goals decide
